import Mathlib

/-!
Shallow embedding of `agora_tally/voting_systems/approval.py` (class
`ApprovalTally`) and verification of the specification's claims about it.

Python `dict` is modelled as an association list with overwrite-on-insert
(`dictInsert`) and first-match lookup (`dictGet`); `str(n)` for a natural
number is modelled as its list of decimal digits, most significant first
(`voteDigits`), with `str(0) = "0"`; Python exceptions used as discard
signals are modelled with `Option`.
-/

/-- An answer of a question: the displayed value (`answer['value']`). -/
structure Answer where
  value : String
deriving DecidableEq, Repr

/-- The question record, with the fields `ApprovalTally` reads:
`answers`, `min`, `max`, `num_seats`, `question`. -/
structure Question where
  answers : List Answer
  min : Nat
  max : Nat
  num_seats : Nat
  question : String
deriving DecidableEq, Repr

/-- A grouped ballot, as in the `self.ballots` list:
`{'votes': ..., 'answers': [...]}`. -/
structure Ballot where
  votes : Nat
  answers : List Int
deriving DecidableEq, Repr

/-- Python dict assignment `d[k] = v`: overwrite the first binding of `k`
if present, else append the new binding. -/
def dictInsert (d : List (String × Int)) (k : String) (v : Int) :
    List (String × Int) :=
  match d with
  | [] => [(k, v)]
  | (k', v') :: rest =>
    if k' = k then (k, v) :: rest else (k', v') :: dictInsert rest k v

/-- Python `d.get(k, dflt)`: value of the first binding of `k`, else the
default. -/
def dictGet (d : List (String × Int)) (k : String) (dflt : Int) : Int :=
  match d with
  | [] => dflt
  | (k', v') :: rest => if k' = k then v' else dictGet rest k dflt

/-- The `pre_tally` loop `i = 1; for answer in answers: dict[value] = i; i += 1`,
started at an arbitrary counter `i` and dict `d`. -/
def fillAnswerDictFrom (values : List String) (i : Int)
    (d : List (String × Int)) : List (String × Int) :=
  match values with
  | [] => d
  | a :: rest => fillAnswerDictFrom rest (i + 1) (dictInsert d a i)

/-- The mutable state of an `ApprovalTally` that the aggregation code
touches: `self.ballots` and `self.answer_to_ids_dict`. -/
structure TallyState where
  ballots : List Ballot
  answer_to_ids_dict : List (String × Int)
deriving DecidableEq, Repr

/-- `answer2id`: `self.answer_to_ids_dict.get(answer, -1)`. -/
def answer2id (s : TallyState) (answer : String) : Int :=
  dictGet s.answer_to_ids_dict answer (-1)

/-- State after `init` and the dict-filling loop of `pre_tally`:
empty ballot list, ids `1..N` assigned in answer order. -/
def pre_tally_state (q : Question) : TallyState :=
  ⟨[], fillAnswerDictFrom (q.answers.map Answer.value) 1 []⟩

/-- Decimal digits of `n`, least significant first, computed with enough
fuel for the recursion on `n / 10` (structural, so the kernel can
evaluate it). -/
def decDigitsAux : Nat → Nat → List Nat
  | 0, _ => []
  | _ + 1, 0 => []
  | fuel + 1, n + 1 => ((n + 1) % 10) :: decDigitsAux fuel ((n + 1) / 10)

/-- Decimal digits of `n`, most significant first, as `str(n)` writes them
(`str(0) = "0"` has one digit). -/
def voteDigits (n : Nat) : List Nat :=
  if n = 0 then [0] else (decDigitsAux n n).reverse

/-- `tab_size = len(str(len(answers) + 2))`: the number of decimal digits
of `numAnswers + 2`. -/
def tabSize (numAnswers : Nat) : Nat :=
  (voteDigits (numAnswers + 2)).length

/-- The zero left-padding step of `parse_vote`: if the length is not a
multiple of `tab_size`, prepend `(tab_size - len % tab_size) % tab_size`
zeros. -/
def padDigits (ds : List Nat) (w : Nat) : List Nat :=
  if ds.length % w ≠ 0 then
    List.replicate ((w - ds.length % w) % w) 0 ++ ds
  else ds

/-- Worker for `chunkFields`: structural recursion on a fuel argument so
that the kernel can evaluate it; each step consumes at least one digit. -/
def chunkFieldsAux : Nat → Nat → List Nat → List (List Nat)
  | 0, _, _ => []
  | _ + 1, _, [] => []
  | fuel + 1, w, d :: rest =>
    (d :: rest.take (w - 1)) :: chunkFieldsAux fuel w (rest.drop (w - 1))

/-- Split a digit string into consecutive fields of width `w` (the slices
`vote_str[i*tab_size : (i+1)*tab_size]` taken in order). -/
def chunkFields (w : Nat) (ds : List Nat) : List (List Nat) :=
  chunkFieldsAux ds.length w ds

/-- `int(field)` on a most-significant-first digit list. -/
def fieldVal (ds : List Nat) : Nat :=
  ds.foldl (fun acc d => acc * 10 + d) 0

/-- The field loop of `parse_vote`: for each field, `option = int(field) - 1`;
raise (`none`) if `option < 0` or `option >= len(answers)`, else append
`answers[option]['value']`. -/
def parseFields (q : Question) : List Nat → Option (List String)
  | [] => some []
  | f :: rest =>
    if (f : Int) - 1 < 0 then none
    else if (q.answers.length : Int) ≤ (f : Int) - 1 then none
    else (parseFields q rest).map
      (fun tail => (q.answers.getD (f - 1) ⟨""⟩).value :: tail)

/-- Lines 80-100 of `parse_vote`: digit string, zero padding, field split,
per-field validation and resolution to answer values. -/
def fieldStage (number : Nat) (q : Question) : Option (List String) :=
  let w := tabSize q.answers.length
  parseFields q ((chunkFields w (padDigits (voteDigits number) w)).map fieldVal)

/-- `parse_vote(number, question)`: the field stage followed by the final
validation `len(ret) < min or len(ret) > max or len(set(ret)) != len(ret)`
(the set-cardinality test is the no-duplicates test). -/
def parse_vote (number : Nat) (q : Question) : Option (List String) :=
  match fieldStage number q with
  | none => none
  | some ret =>
    if ret.length < q.min ∨ q.max < ret.length ∨ ¬ ret.Nodup then none
    else some ret

/-- `find_ballot(answers)`: linear scan of `self.ballots` for the first
ballot whose `answers` list equals the given one. -/
def find_ballot (ballots : List Ballot) (answers : List Int) : Option Ballot :=
  ballots.find? (fun b => b.answers = answers)

/-- The in-place `ballot['votes'] += 1` of `add_vote`: increment the votes
of the first ballot whose `answers` equal the given list. -/
def incrementFirst (ballots : List Ballot) (answers : List Int) : List Ballot :=
  match ballots with
  | [] => []
  | b :: rest =>
    if b.answers = answers then { b with votes := b.votes + 1 } :: rest
    else b :: incrementFirst rest answers

/-- `add_vote`: map the voter's choices through `answer2id`; drop the vote
if any id is `-1`; otherwise increment the matching ballot or append a new
one with `votes = 1`. -/
def add_vote (s : TallyState) (choices : List String) : TallyState :=
  let answers := choices.map (answer2id s)
  if -1 ∈ answers then s
  else if (find_ballot s.ballots answers).isSome then
    { s with ballots := incrementFirst s.ballots answers }
  else
    { s with ballots := s.ballots ++ [⟨1, answers⟩] }

/-- Adding a sequence of votes, one `add_vote` call per voter. -/
def aggregate (s : TallyState) (votes : List (List String)) : TallyState :=
  votes.foldl add_vote s

/-- Python `sep.join(parts)`. -/
def strJoin (sep : String) : List String → String
  | [] => ""
  | [a] => a
  | a :: b :: rest => a ++ sep ++ strJoin sep (b :: rest)

/-- Concatenation of a list of strings (successive `write` calls). -/
def strConcat : List String → String
  | [] => ""
  | s :: rest => s ++ strConcat rest

/-- `question['question'].replace("\n", "")`: the pattern is the single
newline character, so this deletes every newline. -/
def stripNewlines (s : String) : String :=
  String.mk (s.data.filter (fun c => c ≠ '\n'))

/-- The header line written by `pre_tally`:
`'%d %d\n' % (len(answers), num_seats)`. -/
def pre_tally_header (q : Question) : String :=
  toString q.answers.length ++ " " ++ toString q.num_seats ++ "\n"

/-- One ballot line of `finish_writing_ballots_file`:
`'%d %s 0\n' % (votes, ' '.join(str(a) for a in answers))`. -/
def ballotLine (b : Ballot) : String :=
  toString b.votes ++ " " ++ strJoin " " (b.answers.map toString) ++ " 0\n"

/-- Everything `finish_writing_ballots_file` writes: ballot lines, the `0`
terminator line, one quoted line per answer value, and the quoted question
text with newlines removed. -/
def finish_writing_ballots_file (q : Question) (ballots : List Ballot) :
    String :=
  strConcat (ballots.map ballotLine) ++ "0\n" ++
  strConcat (q.answers.map (fun a => "\"" ++ a.value ++ "\"\n")) ++
  ("\"" ++ stripNewlines q.question ++ "\"\n")

/-- The full content of the ballots file: the `pre_tally` header followed
by the `finish_writing_ballots_file` output. -/
def ballotsFileContent (q : Question) (ballots : List Ballot) : String :=
  pre_tally_header q ++ finish_writing_ballots_file q ballots

/-- Spec-side description of the field width: the number of decimal digits
of `len(question.answers) + 2`. -/
def specFieldWidth (q : Question) : Nat :=
  (voteDigits (q.answers.length + 2)).length

/-- Spec-side description of the padded digit string: left-pad with
`(width - len % width) % width` zeros. -/
def specPadded (number : Nat) (q : Question) : List Nat :=
  let w := specFieldWidth q
  List.replicate ((w - (voteDigits number).length % w) % w) 0 ++
    voteDigits number

/-- Spec-side description of the extracted fields: the `i`-th field is the
integer value of the `width`-sized slice starting at `i * width`. -/
def specFields (number : Nat) (q : Question) : List Nat :=
  let w := specFieldWidth q
  (List.range ((specPadded number q).length / w)).map
    (fun i => fieldVal (((specPadded number q).drop (i * w)).take w))

/-- Spec-side description of the decoding stage: fail exactly when some
field, decremented by one, is negative or at least the number of answers;
otherwise resolve every decremented field to the corresponding answer's
value. -/
def specDecode (number : Nat) (q : Question) : Option (List String) :=
  if ∃ f ∈ specFields number q,
      ((f : Int) - 1 < 0 ∨ (q.answers.length : Int) ≤ (f : Int) - 1) then
    none
  else
    some ((specFields number q).map
      (fun f => (q.answers.getD (f - 1) ⟨""⟩).value))

/-- Spec-side description of the serialized ballots file as a list of
lines: header, one space-separated line per ballot ending in the sentinel
`0`, a lone `0` line, one double-quoted line per answer value in answer
order, and the double-quoted question text with newlines stripped. -/
def specSerializeLines (q : Question) (ballots : List Ballot) :
    List String :=
  [strJoin " " [toString q.answers.length, toString q.num_seats]] ++
  ballots.map (fun b =>
    strJoin " " (toString b.votes :: (b.answers.map toString ++ ["0"]))) ++
  ["0"] ++
  q.answers.map (fun a => "\"" ++ a.value ++ "\"") ++
  ["\"" ++ stripNewlines q.question ++ "\""]

/-- Join a list of lines, terminating each with a newline. -/
def unlines (l : List String) : String :=
  strConcat (l.map (fun s => s ++ "\n"))

/-- The fields of the JSON report that `fill_results` reads. -/
structure RawReport where
  ballots_count : Int
  dirty_ballots_count : Int
  winners : List String
  answers : List (String × Int)
deriving DecidableEq, Repr

/-- The per-question fields that `fill_results` writes into the result. -/
structure QuestionResult where
  total_votes : Int
  dirty_votes : Int
  winners : List String
  answer_results : List (Int × ℚ)
deriving DecidableEq, Repr

/-- `json_report['answers'][name]`: dictionary lookup, `none` models the
`KeyError` when the name is absent. -/
def lookupCount (rep : List (String × Int)) (name : String) : Option Int :=
  match rep with
  | [] => none
  | (k, v) :: rest => if k = name then some v else lookupCount rest name

/-- The per-answer loop of `fill_results`: `total_count` is the report's
count for the answer's value, and `total_count_percentage` is
`total_count * 100.0 / total_votes` when `total_votes > 0`, else `0`. -/
def answersResults (rep : RawReport) (total : Int) :
    List Answer → Option (List (Int × ℚ))
  | [] => some []
  | a :: rest =>
    match lookupCount rep.answers a.value with
    | none => none
    | some c =>
      match answersResults rep total rest with
      | none => none
      | some tail =>
        some ((c, if 0 < total then (c * 100 : ℚ) / (total : ℚ) else 0) :: tail)

/-- `fill_results`: `total_votes = ballots_count`,
`dirty_votes = dirty_ballots_count - ballots_count`, winners copied, and
the per-answer counts and percentages computed against the sum of all
per-answer counts of the report. -/
def fill_results (rep : RawReport) (q : Question) : Option QuestionResult :=
  match answersResults rep ((rep.answers.map Prod.snd).sum) q.answers with
  | none => none
  | some rs =>
    some ⟨rep.ballots_count, rep.dirty_ballots_count - rep.ballots_count,
          rep.winners, rs⟩

/-! ## Helper lemmas -/

theorem find_ballot_eq_none_iff (l : List Ballot) (a : List Int) :
    find_ballot l a = none ↔ ∀ b ∈ l, b.answers ≠ a := by
  simp [find_ballot, List.find?_eq_none]

theorem incrementFirst_append_nomatch (l l' : List Ballot) (a : List Int)
    (h : ∀ b ∈ l, b.answers ≠ a) :
    incrementFirst (l ++ l') a = l ++ incrementFirst l' a := by
  induction l with
  | nil => rfl
  | cons b t ih =>
    simp only [List.cons_append, incrementFirst,
      if_neg (h b (List.mem_cons_self b t)), List.append_eq]
    rw [ih (fun b' hb' => h b' (List.mem_cons_of_mem b hb'))]

theorem incrementFirst_first_match (l1 : List Ballot) (b : Ballot)
    (l2 : List Ballot) (a : List Int)
    (h1 : ∀ b' ∈ l1, b'.answers ≠ a) (hb : b.answers = a) :
    incrementFirst (l1 ++ b :: l2) a
      = l1 ++ { b with votes := b.votes + 1 } :: l2 := by
  rw [incrementFirst_append_nomatch l1 (b :: l2) a h1]
  simp [incrementFirst, hb]

theorem answer2id_set_ballots (s : TallyState) (bs : List Ballot) :
    answer2id { s with ballots := bs } = answer2id s := rfl

theorem add_vote_fresh (s : TallyState) (choices : List String)
    (hval : -1 ∉ choices.map (answer2id s))
    (hnew : find_ballot s.ballots (choices.map (answer2id s)) = none) :
    add_vote s choices
      = { s with ballots := s.ballots ++ [⟨1, choices.map (answer2id s)⟩] } := by
  unfold add_vote
  simp [hval, hnew]

theorem dictGet_dictInsert_self (d : List (String × Int)) (k : String)
    (v dflt : Int) : dictGet (dictInsert d k v) k dflt = v := by
  induction d with
  | nil => simp [dictInsert, dictGet]
  | cons p rest ih =>
    obtain ⟨k', v'⟩ := p
    by_cases h : k' = k <;> simp [dictInsert, dictGet, h, ih]

theorem dictGet_dictInsert_ne (d : List (String × Int)) (k k' : String)
    (v dflt : Int) (h : k ≠ k') :
    dictGet (dictInsert d k v) k' dflt = dictGet d k' dflt := by
  induction d with
  | nil => simp [dictInsert, dictGet, h]
  | cons p rest ih =>
    obtain ⟨a, b⟩ := p
    by_cases ha : a = k
    · subst ha
      simp [dictInsert, dictGet, h]
    · simp [dictInsert, dictGet, ha, ih]

theorem fillAnswerDictFrom_notmem (values : List String) (i : Int)
    (d : List (String × Int)) (v : String) (dflt : Int) (h : v ∉ values) :
    dictGet (fillAnswerDictFrom values i d) v dflt = dictGet d v dflt := by
  induction values generalizing i d with
  | nil => rfl
  | cons a rest ih =>
    have hva : a ≠ v := fun he => h (he ▸ List.mem_cons_self a rest)
    have hvr : v ∉ rest := fun hm => h (List.mem_cons_of_mem a hm)
    unfold fillAnswerDictFrom
    rw [ih (i + 1) (dictInsert d a i) hvr,
      dictGet_dictInsert_ne d a v i dflt hva]

theorem fillAnswerDictFrom_get (values : List String) (i : Int)
    (d : List (String × Int)) (dflt : Int) (hnd : values.Nodup)
    (j : Nat) (hj : j < values.length) :
    dictGet (fillAnswerDictFrom values i d) (values.get ⟨j, hj⟩) dflt
      = i + j := by
  induction values generalizing i d j with
  | nil => exact absurd hj (by simp)
  | cons a rest ih =>
    have hna : a ∉ rest := (List.nodup_cons.mp hnd).1
    have hnr : rest.Nodup := (List.nodup_cons.mp hnd).2
    match j with
    | 0 =>
      unfold fillAnswerDictFrom
      show dictGet (fillAnswerDictFrom rest (i + 1) (dictInsert d a i)) a dflt
        = i + 0
      rw [fillAnswerDictFrom_notmem rest (i + 1) (dictInsert d a i) a dflt hna,
        dictGet_dictInsert_self]
      simp
    | j' + 1 =>
      unfold fillAnswerDictFrom
      have hj' : j' < rest.length := by
        simpa using Nat.lt_of_succ_lt_succ hj
      show dictGet (fillAnswerDictFrom rest (i + 1) (dictInsert d a i))
          (rest.get ⟨j', hj'⟩) dflt = i + (j' + 1)
      rw [ih (i + 1) (dictInsert d a i) hnr j' hj']
      omega

theorem voteDigits_length_pos (n : Nat) : 1 ≤ (voteDigits n).length := by
  unfold voteDigits
  cases n with
  | zero => simp
  | succ m =>
    simp [decDigitsAux]

theorem padDigits_eq (ds : List Nat) (w : Nat) :
    padDigits ds w = List.replicate ((w - ds.length % w) % w) 0 ++ ds := by
  unfold padDigits
  by_cases h : ds.length % w = 0
  · rw [if_neg (by simp [h]), h, Nat.sub_zero, Nat.mod_self]
    simp
  · rw [if_pos h]

theorem padDigits_mod (ds : List Nat) (w : Nat) (hw : 1 ≤ w) :
    (padDigits ds w).length % w = 0 := by
  rw [padDigits_eq, List.length_append, List.length_replicate]
  by_cases h : ds.length % w = 0
  · rw [h, Nat.sub_zero, Nat.mod_self, Nat.zero_add]
    exact h
  · have hr : ds.length % w < w := Nat.mod_lt _ (by omega)
    have h1 : (w - ds.length % w) % w = w - ds.length % w :=
      Nat.mod_eq_of_lt (by omega)
    rw [h1]
    have hk := Nat.div_add_mod ds.length w
    generalize hm : w * (ds.length / w) = m at hk
    have h2 : w - ds.length % w + ds.length = m + w := by omega
    rw [h2, ← hm, ← Nat.mul_succ]
    exact Nat.mul_mod_right w _

theorem chunkFieldsAux_eq (w : Nat) (hw : 1 ≤ w) :
    ∀ (n fuel : Nat) (ds : List Nat), ds.length = w * n → ds.length ≤ fuel →
      chunkFieldsAux fuel w ds
        = (List.range n).map (fun i => (ds.drop (i * w)).take w) := by
  intro n
  induction n with
  | zero =>
    intro fuel ds h _
    obtain rfl : ds = [] := List.length_eq_zero.mp (by simpa using h)
    cases fuel <;> simp [chunkFieldsAux]
  | succ n ih =>
    intro fuel ds h hf
    have hpos : 0 < ds.length := by
      rw [h]
      exact Nat.mul_pos (by omega) (Nat.succ_pos n)
    obtain ⟨d, rest, rfl⟩ : ∃ d rest, ds = d :: rest := by
      cases ds with
      | nil => exact absurd hpos (by simp)
      | cons d rest => exact ⟨d, rest, rfl⟩
    obtain ⟨f, rfl⟩ : ∃ f, fuel = f + 1 := ⟨fuel - 1, by omega⟩
    have hd1 : d :: rest.take (w - 1) = (d :: rest).take w := by
      obtain ⟨w', rfl⟩ : ∃ w', w = w' + 1 := ⟨w - 1, by omega⟩
      simp
    have hd2 : rest.drop (w - 1) = (d :: rest).drop w := by
      obtain ⟨w', rfl⟩ : ∃ w', w = w' + 1 := ⟨w - 1, by omega⟩
      simp
    have hlen2 : (rest.drop (w - 1)).length = w * n := by
      rw [Nat.mul_succ] at h
      generalize hm : w * n = m at h ⊢
      simp only [List.length_cons] at h
      simp only [List.length_drop]
      omega
    have hfuel2 : (rest.drop (w - 1)).length ≤ f := by
      simp only [List.length_cons] at hf
      simp only [List.length_drop]
      omega
    show chunkFieldsAux (f + 1) w (d :: rest) = _
    rw [chunkFieldsAux, ih f (rest.drop (w - 1)) hlen2 hfuel2,
      List.range_succ_eq_map, List.map_cons, List.map_map]
    congr 1
    · rw [hd1]
      simp
    · apply List.map_congr_left
      intro i _
      simp only [Function.comp_apply]
      rw [hd2, List.drop_drop]
      congr 2
      rw [Nat.succ_mul]
      exact Nat.add_comm w (i * w)

theorem parseFields_eq_none_iff (q : Question) (fields : List Nat) :
    parseFields q fields = none ↔
      ∃ f ∈ fields,
        ((f : Int) - 1 < 0 ∨ (q.answers.length : Int) ≤ (f : Int) - 1) := by
  induction fields with
  | nil => simp [parseFields]
  | cons f rest ih =>
    by_cases h1 : (f : Int) - 1 < 0
    · constructor
      · intro _
        exact ⟨f, List.mem_cons_self f rest, Or.inl h1⟩
      · intro _
        simp [parseFields, h1]
    · by_cases h2 : (q.answers.length : Int) ≤ (f : Int) - 1
      · constructor
        · intro _
          exact ⟨f, List.mem_cons_self f rest, Or.inr h2⟩
        · intro _
          simp [parseFields, h1, h2]
      · unfold parseFields
        rw [if_neg h1, if_neg h2, Option.map_eq_none', ih]
        constructor
        · rintro ⟨g, hg, hbad⟩
          exact ⟨g, List.mem_cons_of_mem f hg, hbad⟩
        · rintro ⟨g, hg, hbad⟩
          rcases List.mem_cons.mp hg with rfl | hg'
          · rcases hbad with hb | hb
            · exact absurd hb h1
            · exact absurd hb h2
          · exact ⟨g, hg', hbad⟩

theorem parseFields_eq_some (q : Question) (fields : List Nat)
    (h : ∀ f ∈ fields,
      ¬((f : Int) - 1 < 0 ∨ (q.answers.length : Int) ≤ (f : Int) - 1)) :
    parseFields q fields
      = some (fields.map (fun f => (q.answers.getD (f - 1) ⟨""⟩).value)) := by
  induction fields with
  | nil => rfl
  | cons f rest ih =>
    have hf := h f (List.mem_cons_self f rest)
    push_neg at hf
    unfold parseFields
    rw [if_neg (not_lt.mpr hf.1), if_neg (not_le.mpr hf.2),
      ih (fun g hg => h g (List.mem_cons_of_mem f hg))]
    rfl

theorem specFields_eq (number : Nat) (q : Question) :
    (chunkFields (tabSize q.answers.length)
        (padDigits (voteDigits number) (tabSize q.answers.length))).map fieldVal
      = specFields number q := by
  have hw : 1 ≤ tabSize q.answers.length := voteDigits_length_pos _
  have hpad : specPadded number q
      = padDigits (voteDigits number) (tabSize q.answers.length) :=
    (padDigits_eq (voteDigits number) (tabSize q.answers.length)).symm
  have hmod : (padDigits (voteDigits number)
      (tabSize q.answers.length)).length % (tabSize q.answers.length) = 0 :=
    padDigits_mod _ _ hw
  have hdiv : (padDigits (voteDigits number) (tabSize q.answers.length)).length
      = tabSize q.answers.length *
        ((padDigits (voteDigits number) (tabSize q.answers.length)).length /
          tabSize q.answers.length) := by
    conv_lhs => rw [← Nat.div_add_mod
      (padDigits (voteDigits number) (tabSize q.answers.length)).length
      (tabSize q.answers.length)]
    rw [hmod]
    simp
  rw [chunkFields, chunkFieldsAux_eq (tabSize q.answers.length) hw _ _ _ hdiv
    le_rfl, List.map_map]
  unfold specFields
  rw [hpad]
  rfl

theorem strConcat_append (l1 l2 : List String) :
    strConcat (l1 ++ l2) = strConcat l1 ++ strConcat l2 := by
  induction l1 with
  | nil => exact (String.empty_append _).symm
  | cons s t ih =>
    show s ++ strConcat (t ++ l2) = s ++ strConcat t ++ strConcat l2
    rw [ih, String.append_assoc]

theorem unlines_cons (s : String) (l : List String) :
    unlines (s :: l) = s ++ "\n" ++ unlines l := rfl

theorem unlines_append (l1 l2 : List String) :
    unlines (l1 ++ l2) = unlines l1 ++ unlines l2 := by
  unfold unlines
  rw [List.map_append, strConcat_append]

theorem unlines_singleton (s : String) : unlines [s] = s ++ "\n" := by
  show (s ++ "\n") ++ "" = s ++ "\n"
  exact String.append_empty _

theorem strJoin_cons_of_ne_nil (sep a : String) (l : List String)
    (h : l ≠ []) : strJoin sep (a :: l) = a ++ sep ++ strJoin sep l := by
  cases l with
  | nil => exact absurd rfl h
  | cons b t => rfl

theorem strJoin_concat_singleton (sep : String) (l : List String)
    (x : String) (h : l ≠ []) :
    strJoin sep (l ++ [x]) = strJoin sep l ++ sep ++ x := by
  induction l with
  | nil => exact absurd rfl h
  | cons a t ih =>
    cases t with
    | nil => rfl
    | cons b t' =>
      show strJoin sep (a :: ((b :: t') ++ [x])) = _
      rw [strJoin_cons_of_ne_nil sep a ((b :: t') ++ [x]) (by simp),
        ih (by simp), strJoin_cons_of_ne_nil sep a (b :: t') (by simp)]
      simp [String.append_assoc]

theorem ballotLine_eq_spec_line (b : Ballot) (h : b.answers ≠ []) :
    strJoin " " (toString b.votes :: (b.answers.map toString ++ ["0"]))
        ++ "\n"
      = ballotLine b := by
  have hne : b.answers.map toString ++ ["0"] ≠ [] := by simp
  have hne2 : b.answers.map toString ≠ [] := by
    simpa using h
  rw [strJoin_cons_of_ne_nil _ _ _ hne, strJoin_concat_singleton _ _ _ hne2]
  unfold ballotLine
  simp only [String.append_assoc]
  rfl

theorem unlines_ballot_lines (ballots : List Ballot)
    (h : ∀ b ∈ ballots, b.answers ≠ []) :
    unlines (ballots.map (fun b =>
        strJoin " " (toString b.votes :: (b.answers.map toString ++ ["0"]))))
      = strConcat (ballots.map ballotLine) := by
  induction ballots with
  | nil => rfl
  | cons b t ih =>
    rw [List.map_cons, unlines_cons,
      ih (fun b' hb' => h b' (List.mem_cons_of_mem b hb')),
      ballotLine_eq_spec_line b (h b (List.mem_cons_self b t)),
      List.map_cons]
    rfl

theorem unlines_answer_lines (answers : List Answer) :
    unlines (answers.map (fun a => "\"" ++ a.value ++ "\""))
      = strConcat (answers.map (fun a => "\"" ++ a.value ++ "\"\n")) := by
  induction answers with
  | nil => rfl
  | cons a t ih =>
    rw [List.map_cons, unlines_cons, ih, List.map_cons]
    show ("\"" ++ a.value ++ "\"") ++ "\n" ++ _ = ("\"" ++ a.value ++ "\"\n") ++ _
    simp only [String.append_assoc]
    rfl

/-- `add_vote` over a list of votes, with every vote's id list fresh and
all id lists pairwise distinct, appends one count-1 ballot per vote. -/
theorem aggregate_fresh (votes : List (List String)) (s : TallyState)
    (hval : ∀ v ∈ votes, -1 ∉ v.map (answer2id s))
    (hex : ∀ v ∈ votes, ∀ b ∈ s.ballots, b.answers ≠ v.map (answer2id s))
    (hpw : votes.Pairwise
      (fun v w => v.map (answer2id s) ≠ w.map (answer2id s))) :
    (aggregate s votes).ballots
      = s.ballots ++ votes.map (fun v => ⟨1, v.map (answer2id s)⟩) := by
  induction votes generalizing s with
  | nil => simp [aggregate]
  | cons v rest ih =>
    have hv : -1 ∉ v.map (answer2id s) := hval v (List.mem_cons_self v rest)
    have hnone : find_ballot s.ballots (v.map (answer2id s)) = none :=
      (find_ballot_eq_none_iff s.ballots (v.map (answer2id s))).mpr
        (hex v (List.mem_cons_self v rest))
    have hstep : aggregate s (v :: rest) = aggregate (add_vote s v) rest := rfl
    rw [hstep, add_vote_fresh s v hv hnone]
    have hpw1 := List.pairwise_cons.mp hpw
    rw [ih { s with ballots := s.ballots ++ [⟨1, v.map (answer2id s)⟩] }
      (by
        intro w hw
        rw [answer2id_set_ballots]
        exact hval w (List.mem_cons_of_mem v hw))
      (by
        intro w hw b hb
        rw [answer2id_set_ballots]
        simp only [List.mem_append, List.mem_singleton] at hb
        rcases hb with hb | hb
        · exact hex w (List.mem_cons_of_mem v hw) b hb
        · rw [hb]
          exact hpw1.1 w hw)
      (by
        have := hpw1.2
        simpa only [answer2id_set_ballots] using this)]
    simp [answer2id_set_ballots]

theorem voteDigits_ne_nil (n : Nat) : voteDigits n ≠ [] := by
  have := voteDigits_length_pos n
  intro h
  rw [h] at this
  exact absurd this (by simp)

theorem parseFields_some_nil (q : Question) (fields : List Nat)
    (h : parseFields q fields = some []) : fields = [] := by
  cases fields with
  | nil => rfl
  | cons f rest =>
    unfold parseFields at h
    by_cases h1 : (f : Int) - 1 < 0
    · rw [if_pos h1] at h
      exact absurd h (by simp)
    · rw [if_neg h1] at h
      by_cases h2 : (q.answers.length : Int) ≤ (f : Int) - 1
      · rw [if_pos h2] at h
        exact absurd h (by simp)
      · rw [if_neg h2] at h
        obtain ⟨tail, _, htl⟩ := Option.map_eq_some'.mp h
        exact absurd htl (by simp)

/-- Every successfully parsed vote selects at least one answer: the digit
string of any number is non-empty, so at least one field is extracted.
Hence every ballot the aggregator can reach from parsed votes has a
non-empty id list. -/
theorem parse_vote_some_ne_nil (number : Nat) (q : Question)
    (ret : List String) (h : parse_vote number q = some ret) : ret ≠ [] := by
  intro hnil
  subst hnil
  unfold parse_vote at h
  cases hf : fieldStage number q with
  | none => rw [hf] at h; exact absurd h (by simp)
  | some ret' =>
    rw [hf] at h
    have h' : (if ret'.length < q.min ∨ q.max < ret'.length ∨ ¬ ret'.Nodup
        then (none : Option (List String)) else some ret') = some [] := h
    have hret : ret' = [] := by
      by_cases hc : ret'.length < q.min ∨ q.max < ret'.length ∨ ¬ ret'.Nodup
      · rw [if_pos hc] at h'
        exact absurd h' (by simp)
      · rw [if_neg hc] at h'
        simpa using h'.symm
    subst hret
    have hfields := parseFields_some_nil q _ hf
    have hpadne : padDigits (voteDigits number) (tabSize q.answers.length) ≠ [] := by
      rw [padDigits_eq]
      simp [voteDigits_ne_nil number]
    cases hp : padDigits (voteDigits number) (tabSize q.answers.length) with
    | nil => exact absurd hp hpadne
    | cons d rest =>
      rw [hp] at hfields
      simp only [chunkFields, List.length_cons, chunkFieldsAux] at hfields
      exact absurd hfields (by simp)

theorem lookupCount_mem (rep : List (String × Int)) (name : String)
    (c : Int) (h : lookupCount rep name = some c) : ∃ p ∈ rep, p.2 = c := by
  induction rep with
  | nil => exact absurd h (by simp [lookupCount])
  | cons p rest ih =>
    obtain ⟨k, v⟩ := p
    by_cases hk : k = name
    · refine ⟨(k, v), List.mem_cons_self _ _, ?_⟩
      have : some v = some c := by simpa [lookupCount, hk] using h
      simpa using this
    · obtain ⟨p', hp', hc'⟩ := ih (by simpa [lookupCount, hk] using h)
      exact ⟨p', List.mem_cons_of_mem _ hp', hc'⟩

theorem answersResults_mem (rep : RawReport) (total : Int)
    (answers : List Answer) (rs : List (Int × ℚ))
    (h : answersResults rep total answers = some rs) :
    ∀ cp ∈ rs, (∃ p ∈ rep.answers, p.2 = cp.1) ∧
      cp.2 = (if 0 < total then (cp.1 * 100 : ℚ) / (total : ℚ) else 0) := by
  induction answers generalizing rs with
  | nil =>
    have hrs : rs = [] := by simpa [answersResults] using h.symm
    subst hrs
    simp
  | cons a rest ih =>
    unfold answersResults at h
    cases hl : lookupCount rep.answers a.value with
    | none => rw [hl] at h; exact absurd h (by simp)
    | some c =>
      rw [hl] at h
      cases hr : answersResults rep total rest with
      | none => rw [hr] at h; exact absurd h (by simp)
      | some tail =>
        rw [hr] at h
        obtain rfl : _ :: tail = rs := by simpa using h
        intro cp hcp
        rcases List.mem_cons.mp hcp with rfl | hcp'
        · exact ⟨lookupCount_mem rep.answers a.value c hl, rfl⟩
        · exact ih tail hr cp hcp'

/-! ## Claims -/

/-- C5: if any single choice value resolves to the `-1` sentinel, `add_vote`
discards the whole vote and leaves the tally state unchanged. -/
theorem C5_unresolvable_choice_drops_vote (s : TallyState)
    (choices : List String) (h : ∃ c ∈ choices, answer2id s c = -1) :
    add_vote s choices = s := by
  have hm : -1 ∈ choices.map (answer2id s) := by
    obtain ⟨c, hc, he⟩ := h
    exact List.mem_map.mpr ⟨c, hc, he⟩
  simp [add_vote, hm]

theorem C5_unresolvable_choice_drops_vote_witness :
    (∃ c ∈ (["A", "Z"] : List String),
        answer2id (pre_tally_state ⟨[⟨"A"⟩, ⟨"B"⟩], 1, 2, 1, "Q"⟩) c = -1) ∧
    add_vote (pre_tally_state ⟨[⟨"A"⟩, ⟨"B"⟩], 1, 2, 1, "Q"⟩) ["A", "Z"]
      = pre_tally_state ⟨[⟨"A"⟩, ⟨"B"⟩], 1, 2, 1, "Q"⟩ :=
  ⟨by decide,
   C5_unresolvable_choice_drops_vote
     (pre_tally_state ⟨[⟨"A"⟩, ⟨"B"⟩], 1, 2, 1, "Q"⟩) ["A", "Z"] (by decide)⟩

/-- C3: once all fields resolved to `ret`, `parse_vote` fails exactly when
the selection count is outside `[min, max]` or the selections are not
pairwise distinct, and otherwise returns exactly the full list `ret`. -/
theorem C3_validation_stage (number : Nat) (q : Question) (ret : List String)
    (h : fieldStage number q = some ret) :
    (parse_vote number q = none ↔
      (ret.length < q.min ∨ q.max < ret.length ∨ ¬ ret.Nodup)) ∧
    ∀ l, parse_vote number q = some l → l = ret := by
  unfold parse_vote
  rw [h]
  by_cases hc : ret.length < q.min ∨ q.max < ret.length ∨ ¬ ret.Nodup
  · constructor
    · simp [hc]
    · intro l hl
      simp [hc] at hl
  · constructor
    · simp [hc]
    · intro l hl
      simp [hc] at hl
      exact hl.symm

theorem C3_validation_stage_witness :
    fieldStage 12 ⟨[⟨"A"⟩, ⟨"B"⟩, ⟨"C"⟩], 1, 2, 1, "Q"⟩ = some ["A", "B"] ∧
    ((parse_vote 12 ⟨[⟨"A"⟩, ⟨"B"⟩, ⟨"C"⟩], 1, 2, 1, "Q"⟩ = none ↔
      ((["A", "B"] : List String).length < 1 ∨ 2 < (["A", "B"] : List String).length ∨
        ¬ (["A", "B"] : List String).Nodup)) ∧
     ∀ l, parse_vote 12 ⟨[⟨"A"⟩, ⟨"B"⟩, ⟨"C"⟩], 1, 2, 1, "Q"⟩ = some l →
        l = ["A", "B"]) :=
  ⟨by decide,
   C3_validation_stage 12 ⟨[⟨"A"⟩, ⟨"B"⟩, ⟨"C"⟩], 1, 2, 1, "Q"⟩ ["A", "B"]
     (by decide)⟩

/-- C7: with non-negative per-answer counts, every composed percentage is
`totalCount * 100 / totalVoteWeight` when the total vote weight (the sum
of all per-answer counts) is positive, exactly `0` when the weight is `0`,
and always lies in `[0, 100]`. -/
theorem C7_percentage_bounds (rep : RawReport) (q : Question)
    (res : QuestionResult) (hpos : ∀ p ∈ rep.answers, 0 ≤ p.2)
    (h : fill_results rep q = some res) :
    ∀ cp ∈ res.answer_results,
      (0 < (rep.answers.map Prod.snd).sum →
        cp.2 = (cp.1 * 100 : ℚ) / (((rep.answers.map Prod.snd).sum : Int) : ℚ)) ∧
      ((rep.answers.map Prod.snd).sum = 0 → cp.2 = 0) ∧
      0 ≤ cp.2 ∧ cp.2 ≤ 100 := by
  unfold fill_results at h
  cases hm : answersResults rep ((rep.answers.map Prod.snd).sum) q.answers with
  | none => rw [hm] at h; exact absurd h (by simp)
  | some rs =>
    rw [hm] at h
    obtain rfl : _ = res := Option.some_injective _ h
    intro cp hcp
    obtain ⟨⟨p, hp, hpc⟩, hcp2⟩ :=
      answersResults_mem rep _ q.answers rs hm cp hcp
    have hc0 : 0 ≤ cp.1 := hpc ▸ hpos p hp
    have hcT : cp.1 ≤ (rep.answers.map Prod.snd).sum := by
      refine List.single_le_sum (fun x hx => ?_) cp.1 ?_
      · obtain ⟨p', hp', rfl⟩ := List.mem_map.mp hx
        exact hpos p' hp'
      · exact List.mem_map.mpr ⟨p, hp, hpc⟩
    refine ⟨fun hT => ?_, fun hT => ?_, ?_⟩
    · rw [hcp2, if_pos hT]
    · rw [hcp2, if_neg (by omega)]
    · rw [hcp2]
      by_cases hT : 0 < (rep.answers.map Prod.snd).sum
      · rw [if_pos hT]
        have hTq : (0 : ℚ) < (((rep.answers.map Prod.snd).sum : Int) : ℚ) := by
          exact_mod_cast hT
        have hcq : (0 : ℚ) ≤ ((cp.1 : Int) : ℚ) := by exact_mod_cast hc0
        have hle : ((cp.1 : Int) : ℚ)
            ≤ (((rep.answers.map Prod.snd).sum : Int) : ℚ) := by
          exact_mod_cast hcT
        constructor
        · apply div_nonneg _ hTq.le
          positivity
        · rw [div_le_iff₀ hTq]
          nlinarith
      · rw [if_neg hT]
        norm_num

theorem C7_percentage_bounds_witness :
    (∀ p ∈ ([("A", 3), ("B", 1)] : List (String × Int)), 0 ≤ p.2) ∧
    fill_results ⟨10, 12, [], [("A", 3), ("B", 1)]⟩
        ⟨[⟨"A"⟩, ⟨"B"⟩], 1, 2, 1, "Q"⟩
      = some ⟨10, 2, [], [(3, 75), (1, 25)]⟩ ∧
    (∀ cp ∈ ([(3, 75), (1, 25)] : List (Int × ℚ)),
      (0 < ((([("A", 3), ("B", 1)] : List (String × Int)).map Prod.snd).sum) →
        cp.2 = (cp.1 * 100 : ℚ) /
          ((((([("A", 3), ("B", 1)] : List (String × Int)).map
            Prod.snd).sum : Int)) : ℚ)) ∧
      (((([("A", 3), ("B", 1)] : List (String × Int)).map Prod.snd).sum) = 0 →
        cp.2 = 0) ∧
      0 ≤ cp.2 ∧ cp.2 ≤ 100) :=
  ⟨by decide,
   by
    simp [fill_results, answersResults, lookupCount]
    norm_num,
   C7_percentage_bounds ⟨10, 12, [], [("A", 3), ("B", 1)]⟩
     ⟨[⟨"A"⟩, ⟨"B"⟩], 1, 2, 1, "Q"⟩ ⟨10, 2, [], [(3, 75), (1, 25)]⟩
     (by decide)
     (by
      simp [fill_results, answersResults, lookupCount]
      norm_num)⟩

/-- C8: on a successful composition, `total_votes` is the report's
`ballots_count` and `dirty_votes` is its `dirty_ballots_count` minus its
`ballots_count`. -/
theorem C8_dirty_votes_difference (rep : RawReport) (q : Question)
    (res : QuestionResult) (h : fill_results rep q = some res) :
    res.total_votes = rep.ballots_count ∧
    res.dirty_votes = rep.dirty_ballots_count - rep.ballots_count := by
  unfold fill_results at h
  cases hm : answersResults rep ((rep.answers.map Prod.snd).sum) q.answers with
  | none => rw [hm] at h; exact absurd h (by simp)
  | some rs =>
    rw [hm] at h
    obtain rfl : _ = res := Option.some_injective _ h
    exact ⟨rfl, rfl⟩

/-- C2: the field-decoding stage of `parse_vote` coincides, for every
encoded vote and question, with the spec's description: width = number of
decimal digits of `len(answers) + 2`; left-pad with
`(width - len % width) % width` zeros; split into width-sized fields, each
parsed as an integer and decremented; fail exactly when some decremented
field is negative or `≥ len(answers)`; on success resolve each index to
the corresponding answer's value. -/
theorem C2_field_decoding_refines_spec (number : Nat) (q : Question) :
    fieldStage number q = specDecode number q := by
  show parseFields q
      ((chunkFields (tabSize q.answers.length)
        (padDigits (voteDigits number) (tabSize q.answers.length))).map
          fieldVal)
    = specDecode number q
  rw [specFields_eq number q]
  unfold specDecode
  by_cases hbad : ∃ f ∈ specFields number q,
      ((f : Int) - 1 < 0 ∨ (q.answers.length : Int) ≤ (f : Int) - 1)
  · rw [if_pos hbad]
    exact (parseFields_eq_none_iff q _).mpr hbad
  · rw [if_neg hbad]
    push_neg at hbad
    refine parseFields_eq_some q _ (fun f hf => ?_)
    push_neg
    exact hbad f hf

/-- C6: with pairwise-distinct answer values, the `pre_tally` loop assigns
ids `1..N` in answer order (the 0-based `j`-th answer's value maps to id
`j + 1`), and `answer2id` on any value not among the answers' values is
the `-1` sentinel, never a valid id. -/
theorem C6_answer_index_build_and_lookup (q : Question)
    (hnd : (q.answers.map Answer.value).Nodup) :
    (∀ j (hj : j < q.answers.length),
      answer2id (pre_tally_state q) ((q.answers.get ⟨j, hj⟩).value)
        = (j : Int) + 1) ∧
    (∀ v, v ∉ q.answers.map Answer.value →
      answer2id (pre_tally_state q) v = -1) := by
  constructor
  · intro j hj
    have hj' : j < (q.answers.map Answer.value).length := by simpa using hj
    have hget : (q.answers.get ⟨j, hj⟩).value
        = (q.answers.map Answer.value).get ⟨j, hj'⟩ := by
      simp
    rw [answer2id, pre_tally_state, hget,
      fillAnswerDictFrom_get (q.answers.map Answer.value) 1 [] (-1) hnd j hj']
    omega
  · intro v hv
    rw [answer2id, pre_tally_state,
      fillAnswerDictFrom_notmem (q.answers.map Answer.value) 1 [] v (-1) hv]
    rfl

theorem C6_answer_index_build_and_lookup_witness :
    ((([⟨"A"⟩, ⟨"B"⟩, ⟨"C"⟩] : List Answer).map Answer.value).Nodup) ∧
    ((∀ j (hj : j < (⟨[⟨"A"⟩, ⟨"B"⟩, ⟨"C"⟩], 1, 2, 1, "Q"⟩ :
          Question).answers.length),
      answer2id (pre_tally_state ⟨[⟨"A"⟩, ⟨"B"⟩, ⟨"C"⟩], 1, 2, 1, "Q"⟩)
          (((⟨[⟨"A"⟩, ⟨"B"⟩, ⟨"C"⟩], 1, 2, 1, "Q"⟩ :
            Question).answers.get ⟨j, hj⟩).value)
        = (j : Int) + 1) ∧
    (∀ v, v ∉ (⟨[⟨"A"⟩, ⟨"B"⟩, ⟨"C"⟩], 1, 2, 1, "Q"⟩ :
          Question).answers.map Answer.value →
      answer2id (pre_tally_state ⟨[⟨"A"⟩, ⟨"B"⟩, ⟨"C"⟩], 1, 2, 1, "Q"⟩) v
        = -1)) :=
  ⟨by decide,
   C6_answer_index_build_and_lookup ⟨[⟨"A"⟩, ⟨"B"⟩, ⟨"C"⟩], 1, 2, 1, "Q"⟩
     (by decide)⟩

/-- C9: aggregating `n` votes whose resolved id lists are valid and have
pairwise-distinct id sets, starting from an empty ballot list, yields `n`
ballots each of count 1, and the number of ballots is the same for every
insertion order. -/
theorem C9_distinct_votes_order_independent (s : TallyState)
    (votes : List (List String)) (hb : s.ballots = [])
    (hval : ∀ v ∈ votes, -1 ∉ v.map (answer2id s))
    (hpw : votes.Pairwise
      (fun v w => (v.map (answer2id s)).toFinset
        ≠ (w.map (answer2id s)).toFinset)) :
    (aggregate s votes).ballots.length = votes.length ∧
    (∀ b ∈ (aggregate s votes).ballots, b.votes = 1) ∧
    (∀ votes', votes.Perm votes' →
      (aggregate s votes').ballots.length
        = (aggregate s votes).ballots.length) := by
  have hpw' : votes.Pairwise
      (fun v w => v.map (answer2id s) ≠ w.map (answer2id s)) :=
    hpw.imp (fun h he => h (congrArg List.toFinset he))
  have hmain := aggregate_fresh votes s hval
    (fun v _ b hbs => absurd hbs (by rw [hb]; simp)) hpw'
  refine ⟨?_, ?_, ?_⟩
  · rw [hmain, hb]
    simp
  · intro b hbs
    rw [hmain, hb] at hbs
    simp only [List.nil_append, List.mem_map] at hbs
    obtain ⟨v, _, rfl⟩ := hbs
    rfl
  · intro votes' hperm
    have hval' : ∀ v ∈ votes', -1 ∉ v.map (answer2id s) :=
      fun v hv => hval v (hperm.mem_iff.mpr hv)
    have hpw'' : votes'.Pairwise
        (fun v w => v.map (answer2id s) ≠ w.map (answer2id s)) :=
      (hperm.pairwise_iff (fun h he => h he.symm)).mp hpw'
    have hmain' := aggregate_fresh votes' s hval'
      (fun v _ b hbs => absurd hbs (by rw [hb]; simp)) hpw''
    rw [hmain, hmain', hb]
    simp [hperm.length_eq]

theorem C9_distinct_votes_order_independent_witness :
    (pre_tally_state ⟨[⟨"A"⟩, ⟨"B"⟩], 1, 2, 1, "Q"⟩).ballots = [] ∧
    (∀ v ∈ ([["A", "B"], ["B"]] : List (List String)), -1 ∉ v.map
      (answer2id (pre_tally_state ⟨[⟨"A"⟩, ⟨"B"⟩], 1, 2, 1, "Q"⟩))) ∧
    ((aggregate (pre_tally_state ⟨[⟨"A"⟩, ⟨"B"⟩], 1, 2, 1, "Q"⟩)
        [["A", "B"], ["B"]]).ballots.length
      = ([["A", "B"], ["B"]] : List (List String)).length ∧
     (∀ b ∈ (aggregate (pre_tally_state ⟨[⟨"A"⟩, ⟨"B"⟩], 1, 2, 1, "Q"⟩)
        [["A", "B"], ["B"]]).ballots, b.votes = 1) ∧
     (∀ votes', ([["A", "B"], ["B"]] : List (List String)).Perm votes' →
      (aggregate (pre_tally_state ⟨[⟨"A"⟩, ⟨"B"⟩], 1, 2, 1, "Q"⟩)
          votes').ballots.length
        = (aggregate (pre_tally_state ⟨[⟨"A"⟩, ⟨"B"⟩], 1, 2, 1, "Q"⟩)
          [["A", "B"], ["B"]]).ballots.length)) :=
  ⟨by decide, by decide,
   C9_distinct_votes_order_independent
     (pre_tally_state ⟨[⟨"A"⟩, ⟨"B"⟩], 1, 2, 1, "Q"⟩) [["A", "B"], ["B"]]
     (by decide) (by decide) (by decide)⟩

/-- C1, counterexample: two votes whose selection sets are identical
(`{A, B}` selected as `A,B` and as `B,A`) produce two ballots of count 1
each under `add_vote`, not one ballot of count 2: ids are compared as
ordered lists, never normalized. -/
theorem C1_counterexample_order_sensitive :
    (["A", "B"] : List String).toFinset = (["B", "A"] : List String).toFinset ∧
    (add_vote (add_vote (pre_tally_state ⟨[⟨"A"⟩, ⟨"B"⟩], 1, 2, 1, "Q"⟩)
        ["A", "B"]) ["B", "A"]).ballots
      = [⟨1, [1, 2]⟩, ⟨1, [2, 1]⟩] := by
  constructor
  · decide
  · decide

/-- C1, amended: grouping is by the ordered id sequence, with no
normalization. Adding the same choice sequence twice to a state holding no
ballot for it yields exactly one new ballot with count 2 (and the rest of
the state unchanged); identical selection sets presented in different
orders are grouped separately. -/
theorem C1_amended_sequence_grouping (s : TallyState) (choices : List String)
    (hval : -1 ∉ choices.map (answer2id s))
    (hnew : find_ballot s.ballots (choices.map (answer2id s)) = none) :
    (add_vote (add_vote s choices) choices).ballots
      = s.ballots ++ [⟨2, choices.map (answer2id s)⟩] := by
  rw [add_vote_fresh s choices hval hnew]
  set ids := choices.map (answer2id s) with hids
  have hmap : choices.map (answer2id { s with ballots := s.ballots ++ [⟨1, ids⟩] })
      = ids := by
    rw [answer2id_set_ballots]
  unfold add_vote
  rw [hmap]
  have hfind : find_ballot (s.ballots ++ [⟨1, ids⟩]) ids = some ⟨1, ids⟩ := by
    unfold find_ballot at hnew ⊢
    rw [List.find?_append, hnew]
    simp
  have hinc : incrementFirst (s.ballots ++ [⟨1, ids⟩]) ids
      = s.ballots ++ [⟨2, ids⟩] := by
    have hno : ∀ b ∈ s.ballots, b.answers ≠ ids :=
      (find_ballot_eq_none_iff s.ballots ids).mp hnew
    rw [incrementFirst_append_nomatch s.ballots [⟨1, ids⟩] ids hno]
    simp [incrementFirst]
  simp [hval, hfind, hinc]

theorem C1_amended_sequence_grouping_witness :
    ((-1 : Int) ∉ (["A", "B"] : List String).map
        (answer2id (pre_tally_state ⟨[⟨"A"⟩, ⟨"B"⟩], 1, 2, 1, "Q"⟩))) ∧
    find_ballot (pre_tally_state ⟨[⟨"A"⟩, ⟨"B"⟩], 1, 2, 1, "Q"⟩).ballots
        ((["A", "B"] : List String).map
          (answer2id (pre_tally_state ⟨[⟨"A"⟩, ⟨"B"⟩], 1, 2, 1, "Q"⟩))) = none ∧
    (add_vote (add_vote (pre_tally_state ⟨[⟨"A"⟩, ⟨"B"⟩], 1, 2, 1, "Q"⟩)
        ["A", "B"]) ["A", "B"]).ballots
      = (pre_tally_state ⟨[⟨"A"⟩, ⟨"B"⟩], 1, 2, 1, "Q"⟩).ballots ++
        [⟨2, (["A", "B"] : List String).map
          (answer2id (pre_tally_state ⟨[⟨"A"⟩, ⟨"B"⟩], 1, 2, 1, "Q"⟩))⟩] :=
  ⟨by decide, by decide,
   C1_amended_sequence_grouping
     (pre_tally_state ⟨[⟨"A"⟩, ⟨"B"⟩], 1, 2, 1, "Q"⟩) ["A", "B"]
     (by decide) (by decide)⟩

/-- C10: for an accepted vote, `add_vote` never touches the answer-to-id
dict; if no existing ballot has the vote's id list, it exactly appends one
new ballot with `votes = 1`; if the ballots list splits as
`l1 ++ b :: l2` with the first match at `b`, the result is
`l1 ++ (b with votes+1) :: l2` — every other ballot unchanged. -/
theorem C10_add_vote_frame (s : TallyState) (choices : List String)
    (hval : -1 ∉ choices.map (answer2id s)) :
    (add_vote s choices).answer_to_ids_dict = s.answer_to_ids_dict ∧
    ((∀ b ∈ s.ballots, b.answers ≠ choices.map (answer2id s)) →
      (add_vote s choices).ballots
        = s.ballots ++ [⟨1, choices.map (answer2id s)⟩]) ∧
    (∀ l1 b l2, s.ballots = l1 ++ b :: l2 →
      (∀ b' ∈ l1, b'.answers ≠ choices.map (answer2id s)) →
      b.answers = choices.map (answer2id s) →
      (add_vote s choices).ballots
        = l1 ++ ⟨b.votes + 1, b.answers⟩ :: l2) := by
  refine ⟨?_, ?_, ?_⟩
  · unfold add_vote
    by_cases hm : -1 ∈ choices.map (answer2id s)
    · simp [hm]
    · by_cases hf : (find_ballot s.ballots (choices.map (answer2id s))).isSome
      · simp [hm, hf]
      · simp [hm, hf]
  · intro hno
    have hnone : find_ballot s.ballots (choices.map (answer2id s)) = none :=
      (find_ballot_eq_none_iff s.ballots (choices.map (answer2id s))).mpr hno
    rw [add_vote_fresh s choices hval hnone]
  · intro l1 b l2 hsplit hno hb
    have hsome : (find_ballot s.ballots (choices.map (answer2id s))).isSome := by
      unfold find_ballot
      rw [List.find?_isSome]
      exact ⟨b, by rw [hsplit]; simp, by simp [hb]⟩
    unfold add_vote
    simp only [hval, if_neg, hsome, if_pos, if_true]
    rw [hsplit, incrementFirst_first_match l1 b l2 _ hno hb]
    simp [hval]

theorem C10_add_vote_frame_witness :
    ((-1 : Int) ∉ (["B"] : List String).map
        (answer2id (pre_tally_state ⟨[⟨"A"⟩, ⟨"B"⟩], 1, 2, 1, "Q"⟩))) ∧
    ((add_vote (pre_tally_state ⟨[⟨"A"⟩, ⟨"B"⟩], 1, 2, 1, "Q"⟩)
        ["B"]).answer_to_ids_dict
      = (pre_tally_state ⟨[⟨"A"⟩, ⟨"B"⟩], 1, 2, 1, "Q"⟩).answer_to_ids_dict) ∧
    ((add_vote (pre_tally_state ⟨[⟨"A"⟩, ⟨"B"⟩], 1, 2, 1, "Q"⟩) ["B"]).ballots
      = [⟨1, [2]⟩]) :=
  ⟨by decide,
   (C10_add_vote_frame (pre_tally_state ⟨[⟨"A"⟩, ⟨"B"⟩], 1, 2, 1, "Q"⟩) ["B"]
     (by decide)).1,
   by
    have h := (C10_add_vote_frame
      (pre_tally_state ⟨[⟨"A"⟩, ⟨"B"⟩], 1, 2, 1, "Q"⟩) ["B"] (by decide)).2.1
      (by decide)
    rw [h]
    decide⟩

/-- C4: for every question and every ballot list whose ballots each select
at least one answer, the serialized file is exactly the line sequence the
spec describes: the `<answerCount> <seatCount>` header, one
`<count> <id1> ... <idK> 0` line per ballot, a lone `0` line, one quoted
line per answer value in answer order, and the quoted question text with
embedded newlines stripped — in this exact order. -/
theorem C4_serialized_file_format (q : Question) (ballots : List Ballot)
    (h : ∀ b ∈ ballots, b.answers ≠ []) :
    ballotsFileContent q ballots = unlines (specSerializeLines q ballots) := by
  have e1 : unlines [strJoin " "
      [toString q.answers.length, toString q.num_seats]]
      = pre_tally_header q := by
    rw [unlines_singleton]
    rfl
  have e3 : unlines ["0"] = "0\n" := rfl
  have e5 : unlines ["\"" ++ stripNewlines q.question ++ "\""]
      = "\"" ++ stripNewlines q.question ++ "\"\n" := by
    rw [unlines_singleton]
    simp only [String.append_assoc]
    rfl
  unfold ballotsFileContent finish_writing_ballots_file specSerializeLines
  rw [unlines_append, unlines_append, unlines_append, unlines_append,
    e1, e3, e5, unlines_ballot_lines ballots h, unlines_answer_lines]
  simp only [String.append_assoc]

theorem C4_serialized_file_format_witness :
    (∀ b ∈ ([⟨2, [1, 2]⟩, ⟨1, [1]⟩] : List Ballot), b.answers ≠ []) ∧
    ballotsFileContent ⟨[⟨"A"⟩, ⟨"B"⟩, ⟨"C"⟩], 1, 2, 1, "Q"⟩
        [⟨2, [1, 2]⟩, ⟨1, [1]⟩]
      = unlines (specSerializeLines ⟨[⟨"A"⟩, ⟨"B"⟩, ⟨"C"⟩], 1, 2, 1, "Q"⟩
        [⟨2, [1, 2]⟩, ⟨1, [1]⟩]) :=
  ⟨by decide,
   C4_serialized_file_format ⟨[⟨"A"⟩, ⟨"B"⟩, ⟨"C"⟩], 1, 2, 1, "Q"⟩
     [⟨2, [1, 2]⟩, ⟨1, [1]⟩] (by decide)⟩

theorem C8_dirty_votes_difference_witness :
    fill_results ⟨10, 12, [], []⟩ ⟨[], 0, 0, 1, "Q"⟩
      = some ⟨10, 2, [], []⟩ ∧
    ((10 : Int) = (10 : Int) ∧ (2 : Int) = 12 - 10) :=
  ⟨by decide,
   C8_dirty_votes_difference ⟨10, 12, [], []⟩ ⟨[], 0, 0, 1, "Q"⟩
     ⟨10, 2, [], []⟩ (by decide)⟩
